import Mathlib

set_option maxRecDepth 40000

/-!
Verification of the embeNET nRF52-DK border-router transport (BRT) layer.

This development shallowly embeds the HDLC-style framing code of
`src/embenet_node_port/src/embenet_brt.c` (CRC-16/X-25 table and step,
byte stuffing encoder `EMBENET_BRT_Send`, the frame reassembly state
machine of `EMBENET_BRT_Receive`, the raw passthrough
`EMBENET_BRT_ReceiveRaw`, the transmit pump `tx_isr` / `uartWrite`) and
the critical section of `src/embenet_node_port/src/embenet_critical_section.c`.

Machine integers are embedded as `Nat` with explicit masking where the C
code masks; byte queues (the `RingBuffer` type, whose source is not part
of the studied tree) are modelled from the specification as FIFO lists.
-/

namespace BRT

def HDLC_FLAG : Nat := 0x7e
def HDLC_ESCAPE : Nat := 0x7d
def HDLC_ESCAPE_MASK : Nat := 0x20
def HDLC_CRCINIT : Nat := 0xffff
def EMBENET_BRT_MAX_FRAME_SIZE : Nat := 200

/-- The 256-entry CRC table `fcstab` of embenet_brt.c, verbatim. -/
def fcstab : List Nat :=
  [0x0000, 0x1189, 0x2312, 0x329b, 0x4624, 0x57ad, 0x6536, 0x74bf, 0x8c48, 0x9dc1, 0xaf5a, 0xbed3, 0xca6c, 0xdbe5, 0xe97e, 0xf8f7, 0x1081, 0x0108, 0x3393, 0x221a,
   0x56a5, 0x472c, 0x75b7, 0x643e, 0x9cc9, 0x8d40, 0xbfdb, 0xae52, 0xdaed, 0xcb64, 0xf9ff, 0xe876, 0x2102, 0x308b, 0x0210, 0x1399, 0x6726, 0x76af, 0x4434, 0x55bd,
   0xad4a, 0xbcc3, 0x8e58, 0x9fd1, 0xeb6e, 0xfae7, 0xc87c, 0xd9f5, 0x3183, 0x200a, 0x1291, 0x0318, 0x77a7, 0x662e, 0x54b5, 0x453c, 0xbdcb, 0xac42, 0x9ed9, 0x8f50,
   0xfbef, 0xea66, 0xd8fd, 0xc974, 0x4204, 0x538d, 0x6116, 0x709f, 0x0420, 0x15a9, 0x2732, 0x36bb, 0xce4c, 0xdfc5, 0xed5e, 0xfcd7, 0x8868, 0x99e1, 0xab7a, 0xbaf3,
   0x5285, 0x430c, 0x7197, 0x601e, 0x14a1, 0x0528, 0x37b3, 0x263a, 0xdecd, 0xcf44, 0xfddf, 0xec56, 0x98e9, 0x8960, 0xbbfb, 0xaa72, 0x6306, 0x728f, 0x4014, 0x519d,
   0x2522, 0x34ab, 0x0630, 0x17b9, 0xef4e, 0xfec7, 0xcc5c, 0xddd5, 0xa96a, 0xb8e3, 0x8a78, 0x9bf1, 0x7387, 0x620e, 0x5095, 0x411c, 0x35a3, 0x242a, 0x16b1, 0x0738,
   0xffcf, 0xee46, 0xdcdd, 0xcd54, 0xb9eb, 0xa862, 0x9af9, 0x8b70, 0x8408, 0x9581, 0xa71a, 0xb693, 0xc22c, 0xd3a5, 0xe13e, 0xf0b7, 0x0840, 0x19c9, 0x2b52, 0x3adb,
   0x4e64, 0x5fed, 0x6d76, 0x7cff, 0x9489, 0x8500, 0xb79b, 0xa612, 0xd2ad, 0xc324, 0xf1bf, 0xe036, 0x18c1, 0x0948, 0x3bd3, 0x2a5a, 0x5ee5, 0x4f6c, 0x7df7, 0x6c7e,
   0xa50a, 0xb483, 0x8618, 0x9791, 0xe32e, 0xf2a7, 0xc03c, 0xd1b5, 0x2942, 0x38cb, 0x0a50, 0x1bd9, 0x6f66, 0x7eef, 0x4c74, 0x5dfd, 0xb58b, 0xa402, 0x9699, 0x8710,
   0xf3af, 0xe226, 0xd0bd, 0xc134, 0x39c3, 0x284a, 0x1ad1, 0x0b58, 0x7fe7, 0x6e6e, 0x5cf5, 0x4d7c, 0xc60c, 0xd785, 0xe51e, 0xf497, 0x8028, 0x91a1, 0xa33a, 0xb2b3,
   0x4a44, 0x5bcd, 0x6956, 0x78df, 0x0c60, 0x1de9, 0x2f72, 0x3efb, 0xd68d, 0xc704, 0xf59f, 0xe416, 0x90a9, 0x8120, 0xb3bb, 0xa232, 0x5ac5, 0x4b4c, 0x79d7, 0x685e,
   0x1ce1, 0x0d68, 0x3ff3, 0x2e7a, 0xe70e, 0xf687, 0xc41c, 0xd595, 0xa12a, 0xb0a3, 0x8238, 0x93b1, 0x6b46, 0x7acf, 0x4854, 0x59dd, 0x2d62, 0x3ceb, 0x0e70, 0x1ff9,
   0xf78f, 0xe606, 0xd49d, 0xc514, 0xb1ab, 0xa022, 0x92b9, 0x8330, 0x7bc7, 0x6a4e, 0x58d5, 0x495c, 0x3de3, 0x2c6a, 0x1ef1, 0x0f78]

/-- `openhdlc_crc` of embenet_brt.c: one table-driven CRC step. -/
def openhdlc_crc (crc byte : Nat) : Nat :=
  (crc >>> 8) ^^^ fcstab.getD ((crc ^^^ byte) &&& 0xff) 0

/-- CRC accumulation over a byte list starting from a given accumulator. -/
def crcRun (a : Nat) (l : List Nat) : Nat := l.foldl openhdlc_crc a

/-- The CRC accumulator that `EMBENET_BRT_Send` reaches after folding the
payload bytes, before the final complement. -/
def crcOf (p : List Nat) : Nat := crcRun HDLC_CRCINIT p

/-- One LSB-first shift-and-reduce round of the bit-reversed CRC-16 with
polynomial 0x8408 (the reference description of the table contents). -/
def lfsrRound (v : Nat) : Nat :=
  if v % 2 = 1 then (v / 2) ^^^ 0x8408 else v / 2

/-- Reference value of a CRC table entry: eight LSB-first rounds from `i`. -/
def crc16_ref (i : Nat) : Nat := lfsrRound^[8] i

/-- Reference bit-serial CRC-16/X-25 byte step (poly 0x8408, LSB first). -/
def crc16_x25_step (a b : Nat) : Nat := lfsrRound^[8] (a ^^^ b)

/-- Reference CRC-16/X-25 of a byte list (init 0xFFFF, not yet complemented). -/
def crc16_x25 (p : List Nat) : Nat := p.foldl crc16_x25_step 0xffff

/-- `putByte` of embenet_brt.c: byte stuffing of a single data byte. -/
def putByte (b : Nat) : List Nat :=
  if b = HDLC_FLAG ∨ b = HDLC_ESCAPE then [HDLC_ESCAPE, b ^^^ HDLC_ESCAPE_MASK] else [b]

/-- The stuffed form of a byte list (concatenation of `putByte` images). -/
def stuff (l : List Nat) : List Nat := (l.map putByte).flatten

/-- The unstuffed frame body produced by `EMBENET_BRT_Send`: the payload
followed by the low and high byte of the complemented CRC. -/
def sendBody (p : List Nat) : List Nat :=
  p ++ [(0xffff ^^^ crcOf p) &&& 0xff, ((0xffff ^^^ crcOf p) >>> 8) &&& 0xff]

/-- `EMBENET_BRT_Send` of embenet_brt.c, as the list of bytes it emits
through `uartWrite` (a flag, the stuffed payload, the two stuffed bytes of
the complemented CRC, a flag). -/
def EMBENET_BRT_Send (p : List Nat) : List Nat :=
  [HDLC_FLAG] ++ stuff p
    ++ putByte ((0xffff ^^^ crcOf p) &&& 0xff)
    ++ putByte (((0xffff ^^^ crcOf p) >>> 8) &&& 0xff)
    ++ [HDLC_FLAG]

/-- The cross-call decoder state of `EMBENET_BRT_Receive`: the valid prefix
of the static `inputFrame` array (its first `inputFrameDataIndex` entries),
the `inputFrameReceiving` flag and the `lastDataByte` static. -/
structure DecState where
  frame : List Nat
  receiving : Bool
  lastByte : Nat
deriving Repr, DecidableEq

/-- The body of the byte-consuming while loop of `EMBENET_BRT_Receive`:
one byte popped from the inbound queue updates the decoder state; the
returned Boolean is the `frameComplete` flag. -/
def decodeStep (s : DecState) (b : Nat) : DecState × Bool :=
  if s.receiving = false then
    if b = HDLC_FLAG then (⟨[], true, b⟩, false) else (⟨s.frame, s.receiving, b⟩, false)
  else
    if b = HDLC_FLAG then
      if s.lastByte ≠ HDLC_FLAG then
        if s.frame.length > 2 then (⟨s.frame, false, b⟩, true)
        else (⟨[], true, b⟩, false)
      else (⟨[], true, b⟩, false)
    else
      if s.frame.length < EMBENET_BRT_MAX_FRAME_SIZE then
        if b ≠ HDLC_ESCAPE then
          if s.lastByte ≠ HDLC_ESCAPE then (⟨s.frame ++ [b], true, b⟩, false)
          else (⟨s.frame ++ [b ^^^ HDLC_ESCAPE_MASK], true, b⟩, false)
        else (⟨s.frame, true, b⟩, false)
      else (⟨[], false, b⟩, false)

/-- The while loop of `EMBENET_BRT_Receive`: consume queued bytes until a
candidate frame completes or the queue drains; returns the decoder state,
the `frameComplete` flag and the unconsumed remainder of the queue. -/
def receiveLoop : List Nat → DecState → DecState × Bool × List Nat
  | [], s => (s, false, [])
  | b :: rest, s =>
    let r := decodeStep s b
    if r.2 then (r.1, true, rest) else receiveLoop rest r.1

/-- Decoder state at `EMBENET_BRT_Init` time (static storage zeroed). -/
def initDecState : DecState := ⟨[], false, 0⟩

/-- `EMBENET_BRT_Receive` of embenet_brt.c. `queue` is the inbound byte
queue content (FIFO, front first), `s` the cross-call decoder state and
`buf` the current content of the caller-provided buffer (its length is
`packetBufferSize`). The result is the returned length, the buffer content
after the call, the new decoder state and the remaining queue content. -/
def EMBENET_BRT_Receive (queue : List Nat) (s : DecState) (buf : List Nat) :
    Nat × List Nat × DecState × List Nat :=
  let r := receiveLoop queue s
  let s1 := r.1
  let rest := r.2.2
  if r.2.1 = true ∧ s1.frame.length > 0 then
    let n := s1.frame.length
    let crc := 0xffff ^^^ crcRun HDLC_CRCINIT (s1.frame.take (n - 2))
    if (crc &&& 0xff) = s1.frame.getD (n - 2) 0 ∧
       ((crc >>> 8) &&& 0xff) = s1.frame.getD (n - 1) 0 then
      if buf.length ≥ n - 2 then
        (n - 2, s1.frame.take (n - 2) ++ buf.drop (n - 2), ⟨[], true, s1.lastByte⟩, rest)
      else
        (0, s1.frame.take buf.length ++ buf.drop buf.length, ⟨[], true, s1.lastByte⟩, rest)
    else
      (0, buf, ⟨[], true, s1.lastByte⟩, rest)
  else
    (0, buf, s1, rest)

/-- The loop of `EMBENET_BRT_ReceiveRaw` of embenet_brt.c. `queue` is the
inbound queue content, `mem` the caller's memory starting at the buffer
pointer, `off` the current write offset (`dataBytes - data`) and `n` the
`dataBufferSize` argument. `RingBuffer_GetChar` is modelled from the spec
as the FIFO pop of section 4.1. Returns the final offset (the returned
count), the memory after the call and the remaining queue. -/
def rawLoop : List Nat → List Nat → Nat → Nat → Nat × List Nat × List Nat
  | [], mem, off, _ => (off, mem, [])
  | b :: rest, mem, off, n =>
    let mem1 := mem.set off b
    if off + 1 ≥ n then (off + 1, mem1, rest)
    else rawLoop rest mem1 (off + 1) n

/-- `EMBENET_BRT_ReceiveRaw` of embenet_brt.c. -/
def EMBENET_BRT_ReceiveRaw (queue : List Nat) (mem : List Nat) (n : Nat) :
    Nat × List Nat × List Nat :=
  rawLoop queue mem 0 n

/-- State of the critical section module of embenet_critical_section.c
together with the PRIMASK register it drives: `primask = 0` means
interrupts enabled, `primask = 1` disabled. -/
structure CSState where
  irqNestCounter : Int
  primask : Nat
  previousIrqState : Nat
deriving Repr, DecidableEq

/-- `EMBENET_CRITICAL_SECTION_Enter`: read PRIMASK, disable interrupts,
latch the previous state on the outermost entry, bump the nest counter. -/
def cs_enter (s : CSState) : CSState :=
  { irqNestCounter := s.irqNestCounter + 1
    primask := 1
    previousIrqState := if s.irqNestCounter = 0 then s.primask else s.previousIrqState }

/-- `EMBENET_CRITICAL_SECTION_Exit`: decrement the nest counter (clamped
at zero), re-enable interrupts when the counter reaches zero and they were
enabled before the outermost entry. -/
def cs_exit (s : CSState) : CSState :=
  let c0 := s.irqNestCounter - 1
  let c := if c0 < 0 then 0 else c0
  { irqNestCounter := c
    primask := if c = 0 ∧ s.previousIrqState = 0 then 0 else s.primask
    previousIrqState := s.previousIrqState }

/-- Transmit-side state of embenet_brt.c: the outbound ring buffer content
(FIFO, front first; capacity `OUTPUT_RING_BUFFER_SIZE`) and the
`isTransmitting` flag. -/
structure TxState where
  outQ : List Nat
  isTransmitting : Bool
deriving Repr, DecidableEq

def OUTPUT_RING_BUFFER_SIZE : Nat := 256

/-- Modelled from the spec: `RingBuffer_PutChar` (whose source is not in
the studied tree) pushes a byte at the back of the FIFO; per section 4.1
a push on a full queue either overwrites or is rejected — modelled here
as rejection, which the claims proved below do not depend on. -/
def ringPut (q : List Nat) (b : Nat) : List Nat :=
  if q.length < OUTPUT_RING_BUFFER_SIZE then q ++ [b] else q

/-- `uartWrite` of embenet_brt.c: enqueue the byte when a transmission is
in flight, otherwise write it to the UART directly and raise the flag. -/
def uartWrite (s : TxState) (data : Nat) : TxState :=
  if s.isTransmitting = true then ⟨ringPut s.outQ data, s.isTransmitting⟩
  else ⟨s.outQ, true⟩

/-- `tx_isr` of embenet_brt.c: pop the next byte to the UART, or mark the
transmitter idle when the queue is empty (`RingBuffer_GetChar` modelled
from the spec as the FIFO pop of section 4.1). -/
def tx_isr (s : TxState) : TxState :=
  match s.outQ with
  | _ :: rest => ⟨rest, s.isTransmitting⟩
  | [] => ⟨[], false⟩

/-- Transmit state established by `EMBENET_BRT_Init`. -/
def initTxState : TxState := ⟨[], false⟩

/-- Transmit states reachable from `EMBENET_BRT_Init` through `uartWrite`
emissions and `tx_isr` invocations. -/
inductive TxReachable : TxState → Prop
  | init : TxReachable initTxState
  | write (s : TxState) (data : Nat) : TxReachable s → TxReachable (uartWrite s data)
  | isr (s : TxState) : TxReachable s → TxReachable (tx_isr s)

/-- The decoder state after feeding a raw byte stream from the initial
state (intermediate states are covered by feeding prefixes). -/
def runDecoder (stream : List Nat) : DecState :=
  stream.foldl (fun s b => (decodeStep s b).1) initDecState

/-- A wire-level chunk of a frame interior: either a literal data byte
(neither FLAG nor ESCAPE on the wire) or an escape pair `7D c` whose
second byte `c` is neither FLAG nor ESCAPE. -/
inductive WGroup where
  | lit (b : Nat)
  | esc (c : Nat)
deriving Repr, DecidableEq

/-- The wire bytes of a chunk. -/
def WGroup.wire : WGroup → List Nat
  | .lit b => [b]
  | .esc c => [HDLC_ESCAPE, c]

/-- The byte the decoder stores for a chunk. -/
def WGroup.stored : WGroup → Nat
  | .lit b => b
  | .esc c => c ^^^ HDLC_ESCAPE_MASK

/-- The raw value of the last wire byte of a chunk. -/
def WGroup.rawLast : WGroup → Nat
  | .lit b => b
  | .esc c => c

/-- Well-formedness of a chunk: its decisive wire byte is neither FLAG
nor ESCAPE. -/
def WGroup.valid : WGroup → Prop
  | .lit b => b ≠ HDLC_FLAG ∧ b ≠ HDLC_ESCAPE
  | .esc c => c ≠ HDLC_FLAG ∧ c ≠ HDLC_ESCAPE

/-- The `lastByte` value after feeding a chunk list (the initial value
when the list is empty). -/
def glast (last : Nat) : List WGroup → Nat
  | [] => last
  | g :: gs => glast g.rawLast gs

/-- The chunk emitted by `putByte` for a data byte. -/
def groupOf (b : Nat) : WGroup :=
  if b = HDLC_FLAG ∨ b = HDLC_ESCAPE then .esc (b ^^^ HDLC_ESCAPE_MASK) else .lit b

/-- The CRC state-transition with a zero input byte, used to propagate a
single-byte error term through the remaining bytes. -/
def crcZ (d : Nat) : Nat := (d >>> 8) ^^^ fcstab.getD (d &&& 0xff) 0

/-- `k`-fold application of `crcZ`. -/
def crcZn : Nat → Nat → Nat
  | 0, d => d
  | k + 1, d => crcZn k (crcZ d)

/-- Reference form of `crcZ` through the reference table `crc16_ref`. -/
def crcZref (d : Nat) : Nat := (d >>> 8) ^^^ crc16_ref (d &&& 0xff)

/-- The list `l` with the byte at position `m` XOR-ed with `e`. -/
def flipAt (l : List Nat) (m e : Nat) : List Nat :=
  l.take m ++ (l.getD m 0 ^^^ e) :: l.drop (m + 1)

/-! ## Encoder shape -/

theorem send_eq_flag_stuff_body (p : List Nat) :
    EMBENET_BRT_Send p = HDLC_FLAG :: (stuff (sendBody p) ++ [HDLC_FLAG]) := by
  simp [EMBENET_BRT_Send, sendBody, stuff]

/-! ## Concrete encoder scenario and CRC step (claims C4, C5) -/

/-- Claim C4: `EMBENET_BRT_Send` applied to the payload
`[0x01, 0x7E, 0x7D, 0x02]` emits exactly
`7E 01 7D 5E 7D 5D 02 <crcLow> <crcHigh> 7E`, where `7D 5E` and `7D 5D`
are the escaped forms of 0x7E and 0x7D, the two delimiting FLAG bytes are
emitted unescaped, and the trailing bytes are the stuffed low-then-high
bytes of the complemented reference CRC-16/X-25 (poly 0x8408, init
0xFFFF) of the payload. -/
theorem claim_C4 :
    EMBENET_BRT_Send [0x01, 0x7e, 0x7d, 0x02] =
      [0x7e, 0x01, 0x7d, 0x5e, 0x7d, 0x5d, 0x02] ++
        putByte ((0xffff ^^^ crc16_x25 [0x01, 0x7e, 0x7d, 0x02]) &&& 0xff) ++
        putByte (((0xffff ^^^ crc16_x25 [0x01, 0x7e, 0x7d, 0x02]) >>> 8) &&& 0xff) ++
      [0x7e] := by decide

/-- Claim C5: `openhdlc_crc crc byte` equals
`(crc >>> 8) XOR fcstab[(crc XOR byte) & 0xFF]` for all 16-bit `crc` and
8-bit `byte`, and every table entry `fcstab[i]` equals the reference
bit-reversed CRC-16 value for polynomial 0x8408 obtained by eight
LSB-first shift-and-reduce rounds starting from `i`. -/
theorem claim_C5 :
    (∀ crc byte : Nat, crc < 65536 → byte < 256 →
      openhdlc_crc crc byte = (crc >>> 8) ^^^ fcstab.getD ((crc ^^^ byte) &&& 0xff) 0) ∧
    (∀ i : Nat, i < 256 → fcstab.getD i 0 = crc16_ref i) := by
  refine ⟨fun crc byte _ _ => rfl, ?_⟩
  decide

/-- Witness for C5 at `crc = 0xFFFF`, `byte = 0x01` and table index 7. -/
theorem claim_C5_witness :
    openhdlc_crc 0xffff 0x01 = (0xffff >>> 8) ^^^ fcstab.getD ((0xffff ^^^ 0x01) &&& 0xff) 0 ∧
    fcstab.getD 7 0 = crc16_ref 7 :=
  ⟨claim_C5.1 0xffff 0x01 (by decide) (by decide), claim_C5.2 7 (by decide)⟩

/-! ## Raw passthrough (claim C3) -/

theorem rawLoop_spec (queue : List Nat) :
    ∀ (mem : List Nat) (off n : Nat), off < n → n ≤ mem.length →
    rawLoop queue mem off n =
      (off + min queue.length (n - off),
       mem.take off ++ queue.take (min queue.length (n - off)) ++
         mem.drop (off + min queue.length (n - off)),
       queue.drop (min queue.length (n - off))) := by
  induction queue with
  | nil =>
    intro mem off n _ _
    simp [rawLoop]
  | cons b rest ih =>
    intro mem off n hoff hn
    have hofflt : off < mem.length := lt_of_lt_of_le hoff hn
    have hset : mem.set off b = mem.take off ++ b :: mem.drop (off + 1) :=
      List.set_eq_take_cons_drop b hofflt
    have hlentakeoff : (mem.take off).length = off := by
      simp [List.length_take]; omega
    by_cases hend : off + 1 ≥ n
    · have hmin : min (rest.length + 1) (n - off) = 1 := by omega
      simp [rawLoop, hend, hmin, hset]
    · have hlt : off + 1 < n := by omega
      have hmemlen : n ≤ (mem.set off b).length := by simpa using hn
      have hrec := ih (mem.set off b) (off + 1) n hlt hmemlen
      have hmin : min (rest.length + 1) (n - off) =
          min rest.length (n - (off + 1)) + 1 := by omega
      have hTake : (mem.set off b).take (off + 1) = mem.take off ++ [b] := by
        rw [hset]
        have h1 : off + 1 = (mem.take off).length + 1 := by omega
        rw [h1, List.take_append]
        simp
      have hDrop : (mem.set off b).drop (off + 1 + min rest.length (n - (off + 1))) =
          mem.drop (off + (min rest.length (n - (off + 1)) + 1)) := by
        rw [hset]
        have h1 : off + 1 + min rest.length (n - (off + 1)) =
            (mem.take off).length + (min rest.length (n - (off + 1)) + 1) := by omega
        rw [h1, List.drop_append, List.drop_succ_cons, List.drop_drop]
        congr 1
        omega
      simp only [rawLoop]
      rw [if_neg (by omega), hrec, hTake, hDrop]
      simp only [List.length_cons, hmin, Prod.mk.injEq]
      refine ⟨by omega, ?_, by simp⟩
      simp [List.take_succ_cons, List.append_assoc]

/-- Counterexample to claim C3 as stated: with buffer capacity `n = 0` and
a nonempty inbound queue, `EMBENET_BRT_ReceiveRaw` pops one byte (not
`min(queueLength, 0) = 0`), writes it at buffer offset 0 (outside the
first 0 bytes), and returns 1, which exceeds `n = 0`. -/
theorem claim_C3_cex :
    (EMBENET_BRT_ReceiveRaw [5] [9] 0).1 = 1 ∧
    (EMBENET_BRT_ReceiveRaw [5] [9] 0).2.1 = [5] ∧
    ¬((EMBENET_BRT_ReceiveRaw [5] [9] 0).1 ≤ 0) ∧
    (EMBENET_BRT_ReceiveRaw [5] [9] 0).1 ≠ min ([5] : List Nat).length 0 := by
  decide

/-- Claim C3, amended: for every buffer capacity `n ≥ 1` (the `n = 0` case
fails, see the counterexample) and every inbound-queue content,
`EMBENET_BRT_ReceiveRaw` removes exactly `min(queueLength, n)` bytes from
the inbound queue, copies them in FIFO order writing only within the
first `n` bytes of the caller's buffer, and returns that count, which
never exceeds `n`. -/
theorem claim_C3 (queue mem : List Nat) (n : Nat) (h1 : 1 ≤ n)
    (h2 : n ≤ mem.length) :
    (EMBENET_BRT_ReceiveRaw queue mem n).1 = min queue.length n ∧
    (EMBENET_BRT_ReceiveRaw queue mem n).2.2 = queue.drop (min queue.length n) ∧
    (EMBENET_BRT_ReceiveRaw queue mem n).2.1 =
      queue.take (min queue.length n) ++ mem.drop (min queue.length n) ∧
    (EMBENET_BRT_ReceiveRaw queue mem n).1 ≤ n := by
  have h := rawLoop_spec queue mem 0 n (by omega) h2
  unfold EMBENET_BRT_ReceiveRaw
  rw [h]
  refine ⟨by simp, by simp, ?_, by simp⟩
  simp

/-- Witness for the amended C3 at a concrete queue, buffer and capacity. -/
theorem claim_C3_witness :
    (EMBENET_BRT_ReceiveRaw [5, 6, 7] [9, 9] 2).1 = min ([5, 6, 7] : List Nat).length 2 ∧
    (EMBENET_BRT_ReceiveRaw [5, 6, 7] [9, 9] 2).2.2 =
      ([5, 6, 7] : List Nat).drop (min ([5, 6, 7] : List Nat).length 2) ∧
    (EMBENET_BRT_ReceiveRaw [5, 6, 7] [9, 9] 2).2.1 =
      ([5, 6, 7] : List Nat).take (min ([5, 6, 7] : List Nat).length 2) ++
        ([9, 9] : List Nat).drop (min ([5, 6, 7] : List Nat).length 2) ∧
    (EMBENET_BRT_ReceiveRaw [5, 6, 7] [9, 9] 2).1 ≤ 2 :=
  claim_C3 [5, 6, 7] [9, 9] 2 (by decide) (by decide)

/-! ## Critical section (claim C9) -/

theorem cs_enter_iter (s0 : CSState) (h0 : s0.irqNestCounter = 0) :
    ∀ k : Nat, 1 ≤ k → cs_enter^[k] s0 = ⟨(k : Int), 1, s0.primask⟩ := by
  intro k hk
  induction k with
  | zero => omega
  | succ k ih =>
    rcases Nat.eq_or_lt_of_le hk with h | h
    · have hk0 : k = 0 := by omega
      subst hk0
      simp [cs_enter, h0]
    · have hk1 : 1 ≤ k := by omega
      rw [Function.iterate_succ_apply', ih hk1]
      have hkz : ((k : Int)) ≠ 0 := by
        intro hc
        omega
      simp [cs_enter, hkz]

theorem cs_exit_iter_lt (prev : Nat) :
    ∀ (k m : Nat), k < m →
      cs_exit^[k] ⟨(m : Int), 1, prev⟩ = ⟨((m - k : Nat) : Int), 1, prev⟩ := by
  intro k
  induction k with
  | zero => intro m _; simp
  | succ k ih =>
    intro m hm
    rw [Function.iterate_succ_apply]
    have hstep : cs_exit ⟨(m : Int), 1, prev⟩ = ⟨((m - 1 : Nat) : Int), 1, prev⟩ := by
      unfold cs_exit
      have hc : ¬((m : Int) - 1 < 0) := by omega
      have hcz : ¬(((m : Int) - 1 = 0) ∧ prev = 0) := by
        rintro ⟨h1, _⟩
        omega
      simp only [hc, if_false, hcz]
      have hcast : (m : Int) - 1 = ((m - 1 : Nat) : Int) := by omega
      rw [hcast]
    rw [hstep, ih (m - 1) (by omega)]
    have hmk : m - 1 - k = m - (k + 1) := by omega
    rw [hmk]

theorem cs_exit_step_final (prev : Nat) :
    cs_exit ⟨(1 : Int), 1, prev⟩ = ⟨0, if prev = 0 then 0 else 1, prev⟩ := by
  unfold cs_exit
  by_cases hp : prev = 0 <;> simp [hp]

theorem cs_exit_iter_full (prev : Nat) (m : Nat) (hm : 1 ≤ m) :
    cs_exit^[m] ⟨(m : Int), 1, prev⟩ = ⟨0, if prev = 0 then 0 else 1, prev⟩ := by
  obtain ⟨k, rfl⟩ : ∃ k, m = k + 1 := ⟨m - 1, by omega⟩
  rw [Function.iterate_succ_apply']
  by_cases hk : k = 0
  · subst hk
    simpa using cs_exit_step_final prev
  · rw [cs_exit_iter_lt prev k (k + 1) (by omega)]
    have h1 : k + 1 - k = 1 := by omega
    rw [h1]
    exact cs_exit_step_final prev

/-- Claim C9: modelling Enter/Exit over (irqNestCounter, PRIMASK,
previousIrqState), for every sequence of `n ≥ 1` nested Enter calls
followed by Exit calls, interrupts stay disabled (PRIMASK nonzero) after
every Enter and until the Exit that brings the counter back to 0; that
Exit re-enables interrupts exactly when they were enabled before the
outermost Enter; and an Exit with counter already 0 leaves it at 0. -/
theorem claim_C9 (s0 : CSState) (n : Nat) (hn : 1 ≤ n)
    (h0 : s0.irqNestCounter = 0) :
    (∀ k : Nat, 1 ≤ k → k ≤ n → (cs_enter^[k] s0).primask ≠ 0) ∧
    (∀ k : Nat, k < n → (cs_exit^[k] (cs_enter^[n] s0)).primask ≠ 0) ∧
    (cs_exit^[n] (cs_enter^[n] s0)).irqNestCounter = 0 ∧
    ((cs_exit^[n] (cs_enter^[n] s0)).primask = 0 ↔ s0.primask = 0) ∧
    (∀ s : CSState, s.irqNestCounter = 0 → (cs_exit s).irqNestCounter = 0) := by
  have henter : cs_enter^[n] s0 = ⟨(n : Int), 1, s0.primask⟩ := cs_enter_iter s0 h0 n hn
  have hfinal : cs_exit^[n] (cs_enter^[n] s0) =
      ⟨0, if s0.primask = 0 then 0 else 1, s0.primask⟩ := by
    rw [henter]
    exact cs_exit_iter_full s0.primask n hn
  refine ⟨?_, ?_, ?_, ?_, ?_⟩
  · intro k hk1 _
    rw [cs_enter_iter s0 h0 k hk1]
    simp
  · intro k hk
    rw [henter, cs_exit_iter_lt s0.primask k n hk]
    simp
  · rw [hfinal]
  · rw [hfinal]
    by_cases hp : s0.primask = 0 <;> simp [hp]
  · intro s hs
    unfold cs_exit
    rw [hs]
    norm_num

/-- Witness for C9 at `n = 2` starting from counter 0 with interrupts
enabled. -/
theorem claim_C9_witness :
    ((∀ k : Nat, 1 ≤ k → k ≤ 2 →
        (cs_enter^[k] (⟨0, 0, 0⟩ : CSState)).primask ≠ 0) ∧
      (∀ k : Nat, k < 2 →
        (cs_exit^[k] (cs_enter^[2] (⟨0, 0, 0⟩ : CSState))).primask ≠ 0) ∧
      (cs_exit^[2] (cs_enter^[2] (⟨0, 0, 0⟩ : CSState))).irqNestCounter = 0 ∧
      ((cs_exit^[2] (cs_enter^[2] (⟨0, 0, 0⟩ : CSState))).primask = 0 ↔
        (⟨0, 0, 0⟩ : CSState).primask = 0) ∧
      (∀ s : CSState, s.irqNestCounter = 0 → (cs_exit s).irqNestCounter = 0)) :=
  claim_C9 ⟨0, 0, 0⟩ 2 (by omega) rfl

/-! ## Transmit pump invariant (claim C10) -/

/-- Claim C10: in every state reachable from `EMBENET_BRT_Init` by
`uartWrite` and `tx_isr` steps, if `isTransmitting` is false then the
outbound ring buffer is empty. -/
theorem claim_C10 (s : TxState) (hreach : TxReachable s)
    (hidle : s.isTransmitting = false) : s.outQ = [] := by
  induction hreach with
  | init => rfl
  | write s1 data _ _ =>
    exfalso
    unfold uartWrite at hidle
    by_cases h : s1.isTransmitting = true
    · simp [h] at hidle
    · simp [h] at hidle
  | isr s1 _ ih =>
    unfold tx_isr at hidle ⊢
    cases hq : s1.outQ with
    | nil => simp [hq]
    | cons c rest =>
      simp [hq] at hidle ⊢
      have := ih hidle
      rw [this] at hq
      exact absurd hq (by simp)

/-- Witness for C10 at the initial state. -/
theorem claim_C10_witness : initTxState.outQ = [] :=
  claim_C10 initTxState TxReachable.init rfl

/-! ## Decoder accumulator bound (claim C7) -/

theorem decodeStep_length_le (s : DecState) (b : Nat)
    (h : s.frame.length ≤ EMBENET_BRT_MAX_FRAME_SIZE) :
    ((decodeStep s b).1).frame.length ≤ EMBENET_BRT_MAX_FRAME_SIZE := by
  unfold decodeStep
  split_ifs with h1 h2 h3 h4 h5 h6 h7 h8 <;> simp_all <;> omega

/-- Claim C7: the decoder never stores a byte into `inputFrame` at an
index at or past `EMBENET_BRT_MAX_FRAME_SIZE` (200): the accumulator
length stays at most 200 for every inbound byte stream, and a data byte
arriving while the accumulator is already full aborts the frame (index
reset, decoder leaves the receiving state) instead of writing out of
bounds. -/
theorem claim_C7 :
    (∀ (s : DecState) (b : Nat), s.frame.length ≤ EMBENET_BRT_MAX_FRAME_SIZE →
      ((decodeStep s b).1).frame.length ≤ EMBENET_BRT_MAX_FRAME_SIZE) ∧
    (∀ (s : DecState) (b : Nat), s.receiving = true →
      s.frame.length = EMBENET_BRT_MAX_FRAME_SIZE → b ≠ HDLC_FLAG →
      decodeStep s b = (⟨[], false, b⟩, false)) ∧
    (∀ stream : List Nat,
      (runDecoder stream).frame.length ≤ EMBENET_BRT_MAX_FRAME_SIZE) := by
  refine ⟨decodeStep_length_le, ?_, ?_⟩
  · intro s b hrecv hfull hflag
    unfold decodeStep
    rw [hrecv]
    simp only [if_neg hflag]
    rw [hfull]
    simp [hflag]
  · intro stream
    unfold runDecoder
    have haux : ∀ (l : List Nat) (s : DecState),
        s.frame.length ≤ EMBENET_BRT_MAX_FRAME_SIZE →
        (l.foldl (fun s b => (decodeStep s b).1) s).frame.length ≤
          EMBENET_BRT_MAX_FRAME_SIZE := by
      intro l
      induction l with
      | nil => intro s hs; simpa using hs
      | cons b rest ih =>
        intro s hs
        simpa using ih ((decodeStep s b).1) (decodeStep_length_le s b hs)
    exact haux stream initDecState (by simp [initDecState])

/-- Witness for C7: the bound-preservation and the abort behaviour at
concrete states (a full 200-byte accumulator receiving a data byte). -/
theorem claim_C7_witness :
    ((decodeStep ⟨List.replicate 200 0, true, 0⟩ 5).1).frame.length ≤
      EMBENET_BRT_MAX_FRAME_SIZE ∧
    decodeStep ⟨List.replicate 200 0, true, 0⟩ 5 = (⟨[], false, 5⟩, false) :=
  ⟨claim_C7.1 ⟨List.replicate 200 0, true, 0⟩ 5 (by simp [EMBENET_BRT_MAX_FRAME_SIZE]),
   claim_C7.2.1 ⟨List.replicate 200 0, true, 0⟩ 5 rfl
     (by simp [EMBENET_BRT_MAX_FRAME_SIZE]) (by decide)⟩

/-! ## Decoding a stuffed interior -/

theorem receiveLoop_group (g : WGroup) (acc : List Nat) (last : Nat) (rest : List Nat)
    (hg : g.valid) (hlast : last ≠ HDLC_ESCAPE)
    (hlen : acc.length < EMBENET_BRT_MAX_FRAME_SIZE) :
    receiveLoop (g.wire ++ rest) ⟨acc, true, last⟩ =
      receiveLoop rest ⟨acc ++ [g.stored], true, g.rawLast⟩ := by
  cases g with
  | lit b =>
    obtain ⟨hb1, hb2⟩ := hg
    have hstep : decodeStep ⟨acc, true, last⟩ b = (⟨acc ++ [b], true, b⟩, false) := by
      unfold decodeStep
      simp [hb1, hb2, hlast, hlen]
    simp [WGroup.wire, WGroup.stored, WGroup.rawLast, receiveLoop, hstep]
  | esc c =>
    obtain ⟨hc1, hc2⟩ := hg
    have hef : HDLC_ESCAPE ≠ HDLC_FLAG := by decide
    have hstep1 : decodeStep ⟨acc, true, last⟩ HDLC_ESCAPE =
        (⟨acc, true, HDLC_ESCAPE⟩, false) := by
      unfold decodeStep
      simp [hef, hlen]
    have hstep2 : decodeStep ⟨acc, true, HDLC_ESCAPE⟩ c =
        (⟨acc ++ [c ^^^ HDLC_ESCAPE_MASK], true, c⟩, false) := by
      unfold decodeStep
      simp [hc1, hc2, hlen]
    simp [WGroup.wire, WGroup.stored, WGroup.rawLast, receiveLoop, hstep1, hstep2]

theorem receiveLoop_groups (G : List WGroup) :
    ∀ (acc : List Nat) (last : Nat) (rest : List Nat),
    (∀ g ∈ G, g.valid) → last ≠ HDLC_ESCAPE →
    acc.length + G.length ≤ EMBENET_BRT_MAX_FRAME_SIZE →
    receiveLoop ((G.map WGroup.wire).flatten ++ rest) ⟨acc, true, last⟩ =
      receiveLoop rest ⟨acc ++ G.map WGroup.stored, true, glast last G⟩ := by
  induction G with
  | nil =>
    intro acc last rest _ _ _
    simp [glast]
  | cons g gs ih =>
    intro acc last rest hv hlast hlen
    have hg : g.valid := hv g (by simp)
    have hraw : g.rawLast ≠ HDLC_ESCAPE := by
      cases g with
      | lit b => exact hg.2
      | esc c => exact hg.2
    simp only [List.map_cons, List.flatten_cons, List.append_assoc]
    rw [receiveLoop_group g acc last _ hg hlast (by simp at hlen ⊢; omega)]
    rw [ih (acc ++ [g.stored]) g.rawLast rest
      (fun x hx => hv x (by simp [hx])) hraw (by simp at hlen ⊢; omega)]
    simp [glast]

theorem glast_ne (G : List WGroup) :
    ∀ last : Nat, (∀ g ∈ G, g.valid) → G ≠ [] →
      glast last G ≠ HDLC_FLAG ∧ glast last G ≠ HDLC_ESCAPE := by
  induction G with
  | nil =>
    intro last _ h
    exact absurd rfl h
  | cons g gs ih =>
    intro last hv _
    cases gs with
    | nil =>
      have hg : g.valid := hv g (by simp)
      cases g with
      | lit b => exact hg
      | esc c => exact hg
    | cons g2 gs2 =>
      exact ih g.rawLast (fun x hx => hv x (by simp [hx])) (by simp)

theorem groupOf_wire (b : Nat) : (groupOf b).wire = putByte b := by
  unfold groupOf putByte
  split_ifs <;> simp [WGroup.wire]

theorem groupOf_stored (b : Nat) : (groupOf b).stored = b := by
  unfold groupOf
  split_ifs with h
  · simp [WGroup.stored, Nat.xor_assoc]
  · simp [WGroup.stored]

theorem groupOf_valid (b : Nat) : (groupOf b).valid := by
  unfold groupOf
  split_ifs with h
  · rcases h with h | h <;> subst h <;> exact ⟨by decide, by decide⟩
  · push_neg at h
    exact ⟨h.1, h.2⟩

theorem stuff_eq_groups (l : List Nat) :
    stuff l = ((l.map groupOf).map WGroup.wire).flatten := by
  unfold stuff
  rw [List.map_map]
  congr 1
  simp [Function.comp_def, groupOf_wire]

theorem map_stored_groupOf (l : List Nat) :
    (l.map groupOf).map WGroup.stored = l := by
  rw [List.map_map]
  simp [Function.comp_def, groupOf_stored]

theorem receiveLoop_frame (body : List Nat) (last : Nat) (extra : List Nat)
    (hlen : body.length ≤ EMBENET_BRT_MAX_FRAME_SIZE) (hgt : body.length > 2)
    (hlast : last ≠ HDLC_ESCAPE) :
    receiveLoop (stuff body ++ (HDLC_FLAG :: extra)) ⟨[], true, last⟩ =
      (⟨body, false, HDLC_FLAG⟩, true, extra) := by
  have hval : ∀ g ∈ body.map groupOf, g.valid := by
    intro g hg
    obtain ⟨b, _, rfl⟩ := List.mem_map.mp hg
    exact groupOf_valid b
  rw [stuff_eq_groups]
  rw [receiveLoop_groups (body.map groupOf) [] last (HDLC_FLAG :: extra)
    hval hlast (by simpa using hlen)]
  have hne : body.map groupOf ≠ [] := by
    intro hc
    have hbody : body = [] := by
      cases body with
      | nil => rfl
      | cons x xs => simp at hc
    rw [hbody] at hgt
    simp at hgt
  have hgl := glast_ne (body.map groupOf) last hval hne
  have hb : ([] : List Nat) ++ (body.map groupOf).map WGroup.stored = body := by
    rw [List.nil_append]
    exact map_stored_groupOf body
  rw [hb]
  have hstep : decodeStep ⟨body, true, glast last (body.map groupOf)⟩ HDLC_FLAG =
      (⟨body, false, HDLC_FLAG⟩, true) := by
    unfold decodeStep
    simp [hgl.1, hgt]
  simp [receiveLoop, hstep]

/-! ## Decoding a frame produced by the encoder -/

theorem sendBody_length (p : List Nat) : (sendBody p).length = p.length + 2 := by
  simp [sendBody]

theorem receiveLoop_send (p : List Nat) (h1 : 1 ≤ p.length) (h2 : p.length ≤ 198) :
    receiveLoop (EMBENET_BRT_Send p) initDecState =
      (⟨sendBody p, false, HDLC_FLAG⟩, true, []) := by
  rw [send_eq_flag_stuff_body]
  have hfirst : decodeStep initDecState HDLC_FLAG = (⟨[], true, HDLC_FLAG⟩, false) := by
    unfold decodeStep initDecState
    simp
  have h0 : receiveLoop (HDLC_FLAG :: (stuff (sendBody p) ++ [HDLC_FLAG])) initDecState =
      receiveLoop (stuff (sendBody p) ++ [HDLC_FLAG]) ⟨[], true, HDLC_FLAG⟩ := by
    simp [receiveLoop, hfirst]
  rw [h0]
  have h1' : stuff (sendBody p) ++ [HDLC_FLAG] =
      stuff (sendBody p) ++ (HDLC_FLAG :: []) := rfl
  rw [h1', receiveLoop_frame (sendBody p) HDLC_FLAG []
    (by rw [sendBody_length]; unfold EMBENET_BRT_MAX_FRAME_SIZE; omega)
    (by rw [sendBody_length]; omega) (by decide)]

theorem receiveLoop_send_doubled (p : List Nat) (h1 : 1 ≤ p.length)
    (h2 : p.length ≤ 198) :
    receiveLoop (HDLC_FLAG :: EMBENET_BRT_Send p) initDecState =
      (⟨sendBody p, false, HDLC_FLAG⟩, true, []) := by
  rw [send_eq_flag_stuff_body]
  have hfirst : decodeStep initDecState HDLC_FLAG = (⟨[], true, HDLC_FLAG⟩, false) := by
    unfold decodeStep initDecState
    simp
  have hsecond : decodeStep ⟨[], true, HDLC_FLAG⟩ HDLC_FLAG =
      (⟨[], true, HDLC_FLAG⟩, false) := by
    unfold decodeStep
    simp
  have h0 : receiveLoop (HDLC_FLAG :: (HDLC_FLAG :: (stuff (sendBody p) ++ [HDLC_FLAG])))
      initDecState = receiveLoop (stuff (sendBody p) ++ [HDLC_FLAG]) ⟨[], true, HDLC_FLAG⟩ := by
    simp [receiveLoop, hfirst, hsecond]
  rw [h0]
  have h1' : stuff (sendBody p) ++ [HDLC_FLAG] =
      stuff (sendBody p) ++ (HDLC_FLAG :: []) := rfl
  rw [h1', receiveLoop_frame (sendBody p) HDLC_FLAG []
    (by rw [sendBody_length]; unfold EMBENET_BRT_MAX_FRAME_SIZE; omega)
    (by rw [sendBody_length]; omega) (by decide)]

theorem receive_after_complete_big (p buf queue : List Nat)
    (hbuf : p.length ≤ buf.length)
    (hloop : receiveLoop queue initDecState = (⟨sendBody p, false, HDLC_FLAG⟩, true, [])) :
    EMBENET_BRT_Receive queue initDecState buf =
      (p.length, p ++ buf.drop p.length, ⟨[], true, HDLC_FLAG⟩, []) := by
  unfold EMBENET_BRT_Receive
  rw [hloop]
  have hlen : (sendBody p).length = p.length + 2 := sendBody_length p
  have h22 : p.length + 2 - 2 = p.length := by omega
  have htake : (sendBody p).take (p.length + 2 - 2) = p := by
    rw [h22]
    unfold sendBody
    exact List.take_left p _
  have hgetlo : (sendBody p).getD (p.length + 2 - 2) 0 =
      (0xffff ^^^ crcOf p) &&& 0xff := by
    rw [h22]
    unfold sendBody
    rw [List.getD_append_right p _ 0 p.length le_rfl]
    simp
  have hgethi : (sendBody p).getD (p.length + 2 - 1) 0 =
      ((0xffff ^^^ crcOf p) >>> 8) &&& 0xff := by
    have h21 : p.length + 2 - 1 = p.length + 1 := by omega
    rw [h21]
    unfold sendBody
    rw [List.getD_append_right p _ 0 (p.length + 1) (by omega)]
    simp
  simp only [hlen, htake, hgetlo, hgethi]
  have hcrc : (0xffff ^^^ crcRun HDLC_CRCINIT p) = 0xffff ^^^ crcOf p := rfl
  rw [hcrc]
  rw [h22, if_pos (show buf.length ≥ p.length from hbuf)]
  rw [if_pos (show True ∧ p.length + 2 > 0 from ⟨trivial, by omega⟩)]
  rw [if_pos (show ((65535 ^^^ crcOf p) &&& 255 = (65535 ^^^ crcOf p) &&& 255 ∧
    (65535 ^^^ crcOf p) >>> 8 &&& 255 = (65535 ^^^ crcOf p) >>> 8 &&& 255) from ⟨rfl, rfl⟩)]

theorem receive_after_complete_small (p buf queue : List Nat)
    (hbuf : buf.length < p.length)
    (hloop : receiveLoop queue initDecState = (⟨sendBody p, false, HDLC_FLAG⟩, true, [])) :
    EMBENET_BRT_Receive queue initDecState buf =
      (0, p.take buf.length, ⟨[], true, HDLC_FLAG⟩, []) := by
  unfold EMBENET_BRT_Receive
  rw [hloop]
  have hlen : (sendBody p).length = p.length + 2 := sendBody_length p
  have h22 : p.length + 2 - 2 = p.length := by omega
  have htake : (sendBody p).take (p.length + 2 - 2) = p := by
    rw [h22]
    unfold sendBody
    exact List.take_left p _
  have hgetlo : (sendBody p).getD (p.length + 2 - 2) 0 =
      (0xffff ^^^ crcOf p) &&& 0xff := by
    rw [h22]
    unfold sendBody
    rw [List.getD_append_right p _ 0 p.length le_rfl]
    simp
  have hgethi : (sendBody p).getD (p.length + 2 - 1) 0 =
      ((0xffff ^^^ crcOf p) >>> 8) &&& 0xff := by
    have h21 : p.length + 2 - 1 = p.length + 1 := by omega
    rw [h21]
    unfold sendBody
    rw [List.getD_append_right p _ 0 (p.length + 1) (by omega)]
    simp
  simp only [hlen, htake, hgetlo, hgethi]
  have hcrc : (0xffff ^^^ crcRun HDLC_CRCINIT p) = 0xffff ^^^ crcOf p := rfl
  rw [hcrc]
  rw [h22, if_neg (show ¬(buf.length ≥ p.length) by omega)]
  rw [if_pos (show True ∧ p.length + 2 > 0 from ⟨trivial, by omega⟩)]
  rw [if_pos (show ((65535 ^^^ crcOf p) &&& 255 = (65535 ^^^ crcOf p) &&& 255 ∧
    (65535 ^^^ crcOf p) >>> 8 &&& 255 = (65535 ^^^ crcOf p) >>> 8 &&& 255) from ⟨rfl, rfl⟩)]
  have hdrop : buf.drop buf.length = [] := List.drop_length buf
  have htakebuf : (sendBody p).take buf.length = p.take buf.length := by
    unfold sendBody
    exact List.take_append_of_le_length (by omega)
  rw [hdrop, htakebuf, List.append_nil]

/-! ## Round trip and its failure modes (claims C1, C2, C8) -/

/-- Claim C2: for every payload of length between 1 and 198 inclusive,
feeding the exact wire bytes emitted by `EMBENET_BRT_Send` through the
decoder from its initial state, `EMBENET_BRT_Receive` with a buffer of
capacity at least the payload length returns the payload length and the
buffer holds exactly the payload bytes (followed by its untouched tail). -/
theorem claim_C2 (p buf : List Nat) (hbytes : ∀ b ∈ p, b < 256)
    (h1 : 1 ≤ p.length) (h2 : p.length ≤ 198) (hbuf : p.length ≤ buf.length) :
    (EMBENET_BRT_Receive (EMBENET_BRT_Send p) initDecState buf).1 = p.length ∧
    (EMBENET_BRT_Receive (EMBENET_BRT_Send p) initDecState buf).2.1 =
      p ++ buf.drop p.length := by
  rw [receive_after_complete_big p buf _ hbuf (receiveLoop_send p h1 h2)]
  exact ⟨rfl, rfl⟩

/-- Witness for C2 at the payload `[1, 0x7E, 0x7D, 2]` and a buffer of
five bytes. -/
theorem claim_C2_witness :
    (EMBENET_BRT_Receive (EMBENET_BRT_Send [1, 126, 125, 2]) initDecState
        [9, 9, 9, 9, 9]).1 = ([1, 126, 125, 2] : List Nat).length ∧
    (EMBENET_BRT_Receive (EMBENET_BRT_Send [1, 126, 125, 2]) initDecState
        [9, 9, 9, 9, 9]).2.1 =
      [1, 126, 125, 2] ++ ([9, 9, 9, 9, 9] : List Nat).drop
        ([1, 126, 125, 2] : List Nat).length :=
  claim_C2 [1, 126, 125, 2] [9, 9, 9, 9, 9] (by decide) (by decide) (by decide)
    (by decide)

/-- Counterexample to claim C1 as stated: decoding the valid frame for
payload `[1, 2]` into a one-byte buffer previously holding `[170]`
returns 0 but the buffer is overwritten (it ends up holding `[1]`, the
first payload byte), so bytes are copied. -/
theorem claim_C1_cex :
    (EMBENET_BRT_Receive (EMBENET_BRT_Send [1, 2]) initDecState [170]).1 = 0 ∧
    (EMBENET_BRT_Receive (EMBENET_BRT_Send [1, 2]) initDecState [170]).2.1 ≠ [170] := by
  decide

/-- Claim C1, amended: for every structurally valid, CRC-correct frame
assembled by `EMBENET_BRT_Receive` whose payload length exceeds the
caller-supplied buffer capacity, the call returns 0 but it DOES copy
bytes: the first `packetBufferSize` bytes of the payload overwrite the
caller's buffer (the C code performs
`memcpy(packetBuffer, inputFrame, packetBufferSize)` before `return 0`). -/
theorem claim_C1 (p buf : List Nat) (h1 : 1 ≤ p.length) (h2 : p.length ≤ 198)
    (hbuf : buf.length < p.length) :
    (EMBENET_BRT_Receive (EMBENET_BRT_Send p) initDecState buf).1 = 0 ∧
    (EMBENET_BRT_Receive (EMBENET_BRT_Send p) initDecState buf).2.1 =
      p.take buf.length := by
  rw [receive_after_complete_small p buf _ hbuf (receiveLoop_send p h1 h2)]
  exact ⟨rfl, rfl⟩

/-- Witness for the amended C1 at payload `[1, 2]` and a one-byte buffer. -/
theorem claim_C1_witness :
    (EMBENET_BRT_Receive (EMBENET_BRT_Send [1, 2]) initDecState [170]).1 = 0 ∧
    (EMBENET_BRT_Receive (EMBENET_BRT_Send [1, 2]) initDecState [170]).2.1 =
      ([1, 2] : List Nat).take ([170] : List Nat).length :=
  claim_C1 [1, 2] [170] (by decide) (by decide) (by decide)

/-- Claim C8: for every valid encoded frame, feeding
`FLAG FLAG <interior> FLAG` (a doubled leading delimiter) to the decoder
from its initial state yields exactly one decoded frame equal to the
payload: the call returns the payload into the buffer and consumes the
whole stream, and a further call on the resulting state returns 0 (no
empty frame is surfaced). -/
theorem claim_C8 (p buf buf2 : List Nat) (h1 : 1 ≤ p.length)
    (h2 : p.length ≤ 198) (hbuf : p.length ≤ buf.length) :
    EMBENET_BRT_Receive (HDLC_FLAG :: EMBENET_BRT_Send p) initDecState buf =
      (p.length, p ++ buf.drop p.length, ⟨[], true, HDLC_FLAG⟩, []) ∧
    (EMBENET_BRT_Receive [] (⟨[], true, HDLC_FLAG⟩ : DecState) buf2).1 = 0 := by
  exact ⟨receive_after_complete_big p buf _ hbuf (receiveLoop_send_doubled p h1 h2), rfl⟩

/-- Witness for C8 at payload `[1, 2, 3]`. -/
theorem claim_C8_witness :
    EMBENET_BRT_Receive (HDLC_FLAG :: EMBENET_BRT_Send [1, 2, 3]) initDecState [9, 9, 9] =
      (([1, 2, 3] : List Nat).length,
        [1, 2, 3] ++ ([9, 9, 9] : List Nat).drop ([1, 2, 3] : List Nat).length,
        ⟨[], true, HDLC_FLAG⟩, []) ∧
    (EMBENET_BRT_Receive [] (⟨[], true, HDLC_FLAG⟩ : DecState) [7]).1 = 0 :=
  claim_C8 [1, 2, 3] [9, 9, 9] [7] (by decide) (by decide) (by decide)

/-! ## GF(2) linearity of the CRC step and error-term propagation -/

theorem xor_mod_two (x y : Nat) : (x ^^^ y) % 2 = (x % 2) ^^^ (y % 2) := by
  rw [← Nat.and_one_is_mod, ← Nat.and_one_is_mod, ← Nat.and_one_is_mod,
    Nat.and_xor_distrib_right]

theorem xor_div_two (x y : Nat) : (x ^^^ y) / 2 = (x / 2) ^^^ (y / 2) := by
  apply Nat.eq_of_testBit_eq
  intro i
  simp [Nat.testBit_div_two, Nat.testBit_xor]

theorem xor_shiftRight (x y n : Nat) : (x ^^^ y) >>> n = x >>> n ^^^ y >>> n := by
  apply Nat.eq_of_testBit_eq
  intro i
  simp [Nat.testBit_shiftRight, Nat.testBit_xor]

theorem xor_mix (w x y z : Nat) : (w ^^^ x) ^^^ (y ^^^ z) = (w ^^^ y) ^^^ (x ^^^ z) := by
  rw [Nat.xor_assoc, Nat.xor_assoc, ← Nat.xor_assoc x y z, Nat.xor_comm x y,
    Nat.xor_assoc y x z]

theorem xor_cancel_left (a b c : Nat) (h : a ^^^ b = a ^^^ c) : b = c := by
  have hb : b = a ^^^ (a ^^^ b) := by
    rw [← Nat.xor_assoc, Nat.xor_self, Nat.zero_xor]
  rw [hb, h, ← Nat.xor_assoc, Nat.xor_self, Nat.zero_xor]

theorem and_ff_lt (x : Nat) : x &&& 0xff < 256 :=
  lt_of_le_of_lt Nat.and_le_right (by norm_num)

theorem xor_right_comm (a b c : Nat) : a ^^^ b ^^^ c = a ^^^ c ^^^ b := by
  rw [Nat.xor_assoc, Nat.xor_comm b c, ← Nat.xor_assoc]

theorem xor_lt_65536 (x y : Nat) (hx : x < 65536) (hy : y < 65536) :
    x ^^^ y < 65536 := by
  have h : (65536 : Nat) = 2 ^ 16 := by norm_num
  rw [h] at hx hy ⊢
  exact Nat.xor_lt_two_pow hx hy

theorem xor_lt_256 (x y : Nat) (hx : x < 256) (hy : y < 256) : x ^^^ y < 256 := by
  have h : (256 : Nat) = 2 ^ 8 := by norm_num
  rw [h] at hx hy ⊢
  exact Nat.xor_lt_two_pow hx hy

theorem and_ff_eq_mod (x : Nat) : x &&& 0xff = x % 256 := by
  have := Nat.and_pow_two_sub_one_eq_mod x 8
  norm_num at this
  exact this

theorem lfsrRound_xor (x y : Nat) : lfsrRound (x ^^^ y) = lfsrRound x ^^^ lfsrRound y := by
  unfold lfsrRound
  have hm := xor_mod_two x y
  have hd := xor_div_two x y
  rcases Nat.mod_two_eq_zero_or_one x with hx | hx <;>
    rcases Nat.mod_two_eq_zero_or_one y with hy | hy
  · have hm0 : (x ^^^ y) % 2 = 0 := by rw [hm, hx, hy]; decide
    rw [if_neg (show ¬((x ^^^ y) % 2 = 1) by omega),
      if_neg (show ¬(x % 2 = 1) by omega),
      if_neg (show ¬(y % 2 = 1) by omega), hd]
  · have hm1 : (x ^^^ y) % 2 = 1 := by rw [hm, hx, hy]; decide
    rw [if_pos hm1, if_neg (show ¬(x % 2 = 1) by omega), if_pos hy, hd, Nat.xor_assoc]
  · have hm1 : (x ^^^ y) % 2 = 1 := by rw [hm, hx, hy]; decide
    rw [if_pos hm1, if_pos hx, if_neg (show ¬(y % 2 = 1) by omega), hd, xor_right_comm]
  · have hm0 : (x ^^^ y) % 2 = 0 := by rw [hm, hx, hy]; decide
    rw [if_neg (show ¬((x ^^^ y) % 2 = 1) by omega), if_pos hx, if_pos hy, hd,
      xor_mix, Nat.xor_self, Nat.xor_zero]

theorem lfsr_iter_xor (n : Nat) : ∀ x y : Nat,
    lfsrRound^[n] (x ^^^ y) = lfsrRound^[n] x ^^^ lfsrRound^[n] y := by
  induction n with
  | zero => intro x y; simp
  | succ n ih =>
    intro x y
    rw [Function.iterate_succ_apply, Function.iterate_succ_apply,
      Function.iterate_succ_apply, lfsrRound_xor]
    exact ih (lfsrRound x) (lfsrRound y)

theorem fcstab_eq_ref : ∀ i : Nat, i < 256 → fcstab.getD i 0 = crc16_ref i := by
  decide

theorem fcstab_xor (x y : Nat) (hx : x < 256) (hy : y < 256) :
    fcstab.getD (x ^^^ y) 0 = fcstab.getD x 0 ^^^ fcstab.getD y 0 := by
  have hxy : x ^^^ y < 256 := xor_lt_256 x y hx hy
  rw [fcstab_eq_ref _ hxy, fcstab_eq_ref _ hx, fcstab_eq_ref _ hy]
  exact lfsr_iter_xor 8 x y

theorem openhdlc_crc_xor_state (a d b : Nat) :
    openhdlc_crc (a ^^^ d) b = openhdlc_crc a b ^^^ crcZ d := by
  unfold openhdlc_crc crcZ
  have h1 : (a ^^^ d) >>> 8 = a >>> 8 ^^^ d >>> 8 := xor_shiftRight a d 8
  have h0 : (a ^^^ d) ^^^ b = (a ^^^ b) ^^^ d := by
    rw [Nat.xor_assoc, Nat.xor_comm d b, ← Nat.xor_assoc]
  have h2 : ((a ^^^ d) ^^^ b) &&& 0xff = ((a ^^^ b) &&& 0xff) ^^^ (d &&& 0xff) := by
    rw [h0, Nat.and_xor_distrib_right]
  rw [h1, h2, fcstab_xor _ _ (and_ff_lt _) (and_ff_lt _)]
  exact xor_mix _ _ _ _

theorem openhdlc_crc_xor_byte (a b e : Nat) :
    openhdlc_crc a (b ^^^ e) = openhdlc_crc a b ^^^ fcstab.getD (e &&& 0xff) 0 := by
  unfold openhdlc_crc
  have h2 : (a ^^^ (b ^^^ e)) &&& 0xff = ((a ^^^ b) &&& 0xff) ^^^ (e &&& 0xff) := by
    rw [← Nat.xor_assoc, Nat.and_xor_distrib_right]
  rw [h2, fcstab_xor _ _ (and_ff_lt _) (and_ff_lt _), ← Nat.xor_assoc]

theorem crcRun_cons (a b : Nat) (l : List Nat) :
    crcRun a (b :: l) = crcRun (openhdlc_crc a b) l := rfl

theorem crcRun_append (a : Nat) (xs ys : List Nat) :
    crcRun a (xs ++ ys) = crcRun (crcRun a xs) ys :=
  List.foldl_append openhdlc_crc a xs ys

theorem crcRun_xor_state (l : List Nat) : ∀ a d : Nat,
    crcRun (a ^^^ d) l = crcRun a l ^^^ crcZn l.length d := by
  induction l with
  | nil => intro a d; rfl
  | cons b bs ih =>
    intro a d
    rw [crcRun_cons, openhdlc_crc_xor_state, ih (openhdlc_crc a b) (crcZ d)]
    rfl

theorem crcRun_flip (xs ys : List Nat) (a b e : Nat) :
    crcRun a (xs ++ (b ^^^ e) :: ys) =
      crcRun a (xs ++ b :: ys) ^^^ crcZn ys.length (fcstab.getD (e &&& 0xff) 0) := by
  rw [crcRun_append, crcRun_append, crcRun_cons, crcRun_cons, openhdlc_crc_xor_byte]
  exact crcRun_xor_state ys _ _

theorem crcZ_eq_ref (d : Nat) : crcZ d = crcZref d := by
  unfold crcZ crcZref
  rw [fcstab_eq_ref _ (and_ff_lt d)]

theorem crc16_ref_small_eq_zero : ∀ i : Nat, i < 256 → crc16_ref i < 256 → i = 0 := by
  decide

theorem crc16_ref_lt : ∀ i : Nat, i < 256 → crc16_ref i < 65536 := by
  decide

theorem crcZ_ne_zero (d : Nat) (hd : d < 65536) (h0 : d ≠ 0) : crcZ d ≠ 0 := by
  rw [crcZ_eq_ref]
  unfold crcZref
  intro hc
  have hhi : d >>> 8 = crc16_ref (d &&& 0xff) := Nat.xor_eq_zero.mp hc
  have hhilt : d >>> 8 < 256 := by
    rw [Nat.shiftRight_eq_div_pow]
    omega
  have hlo : d &&& 0xff = 0 :=
    crc16_ref_small_eq_zero (d &&& 0xff) (and_ff_lt d) (by rw [← hhi]; exact hhilt)
  have hhz : d >>> 8 = 0 := by
    rw [hhi, hlo]
    decide
  rw [Nat.shiftRight_eq_div_pow] at hhz
  rw [and_ff_eq_mod] at hlo
  norm_num at hhz
  omega

theorem crcZ_lt (d : Nat) (hd : d < 65536) : crcZ d < 65536 := by
  rw [crcZ_eq_ref]
  unfold crcZref
  have h1 : d >>> 8 < 65536 := by
    rw [Nat.shiftRight_eq_div_pow]
    omega
  have h2 : crc16_ref (d &&& 0xff) < 65536 := crc16_ref_lt _ (and_ff_lt d)
  exact xor_lt_65536 _ _ h1 h2

theorem crcZn_ok (k : Nat) : ∀ d : Nat, d < 65536 → d ≠ 0 →
    crcZn k d ≠ 0 ∧ crcZn k d < 65536 := by
  induction k with
  | zero => intro d hd h0; exact ⟨h0, hd⟩
  | succ k ih =>
    intro d hd h0
    exact ih (crcZ d) (crcZ_lt d hd) (crcZ_ne_zero d hd h0)

theorem fcstab_pow : ∀ j : Nat, j < 8 →
    fcstab.getD ((2 ^ j) &&& 0xff) 0 ≠ 0 ∧ fcstab.getD ((2 ^ j) &&& 0xff) 0 < 65536 := by
  decide

theorem fcstab_lt : ∀ i : Nat, i < 256 → fcstab.getD i 0 < 65536 := by
  decide

theorem openhdlc_crc_lt (a b : Nat) (ha : a < 65536) : openhdlc_crc a b < 65536 := by
  unfold openhdlc_crc
  have h1 : a >>> 8 < 65536 := by
    rw [Nat.shiftRight_eq_div_pow]
    omega
  have h2 : fcstab.getD ((a ^^^ b) &&& 0xff) 0 < 65536 := fcstab_lt _ (and_ff_lt _)
  exact xor_lt_65536 _ _ h1 h2

theorem crcRun_lt (l : List Nat) : ∀ a : Nat, a < 65536 → crcRun a l < 65536 := by
  induction l with
  | nil => intro a ha; exact ha
  | cons b bs ih =>
    intro a ha
    rw [crcRun_cons]
    exact ih _ (openhdlc_crc_lt a b ha)

theorem crcOf_lt (p : List Nat) : crcOf p < 65536 :=
  crcRun_lt p HDLC_CRCINIT (by norm_num [HDLC_CRCINIT])

theorem bytes_inj (x y : Nat) (hx : x < 65536) (hy : y < 65536)
    (hlo : x &&& 0xff = y &&& 0xff) (hhi : (x >>> 8) &&& 0xff = (y >>> 8) &&& 0xff) :
    x = y := by
  rw [and_ff_eq_mod, and_ff_eq_mod] at hlo
  rw [and_ff_eq_mod, and_ff_eq_mod, Nat.shiftRight_eq_div_pow,
    Nat.shiftRight_eq_div_pow] at hhi
  norm_num at hhi
  omega

/-! ## Wire-level single-byte corruption (claim C6) -/

theorem flipAt_cons_zero (x : Nat) (l : List Nat) (e : Nat) :
    flipAt (x :: l) 0 e = (x ^^^ e) :: l := by
  unfold flipAt
  simp

theorem flipAt_cons_succ (x : Nat) (l : List Nat) (k e : Nat) :
    flipAt (x :: l) (k + 1) e = x :: flipAt l k e := by
  unfold flipAt
  simp [List.take_succ_cons, List.drop_succ_cons, List.getD_cons_succ]

theorem flipAt_length (l : List Nat) (m e : Nat) (h : m < l.length) :
    (flipAt l m e).length = l.length := by
  unfold flipAt
  simp [List.length_take, List.length_drop]
  omega

theorem take_getD_drop (l : List Nat) :
    ∀ m : Nat, m < l.length → l = l.take m ++ l.getD m 0 :: l.drop (m + 1) := by
  induction l with
  | nil =>
    intro m hm
    simp at hm
  | cons x xs ih =>
    intro m hm
    cases m with
    | zero => simp
    | succ m1 =>
      simp only [List.take_succ_cons, List.drop_succ_cons, List.getD_cons_succ,
        List.cons_append, List.cons.injEq, true_and]
      exact ih m1 (by simpa using hm)

theorem flip_of_append (B1 B2 : List Nat) (c e : Nat) :
    flipAt (B1 ++ c :: B2) B1.length e = B1 ++ (c ^^^ e) :: B2 := by
  unfold flipAt
  rw [List.take_left, List.getD_append_right B1 _ 0 B1.length le_rfl]
  have hdrop : (B1 ++ c :: B2).drop (B1.length + 1) = B2 := by
    rw [List.drop_append 1]
    simp
  rw [hdrop]
  simp

theorem stuff_flip (l : List Nat) :
    ∀ (k e : Nat), k < (stuff l).length →
    (stuff l).getD k 0 ≠ HDLC_FLAG → (stuff l).getD k 0 ≠ HDLC_ESCAPE →
    (stuff l).getD k 0 ^^^ e ≠ HDLC_FLAG → (stuff l).getD k 0 ^^^ e ≠ HDLC_ESCAPE →
    ∃ (B1 B2 : List Nat) (c : Nat) (G : List WGroup),
      l = B1 ++ c :: B2 ∧
      flipAt (stuff l) k e = (G.map WGroup.wire).flatten ∧
      (∀ g ∈ G, g.valid) ∧
      G.map WGroup.stored = B1 ++ (c ^^^ e) :: B2 := by
  induction l with
  | nil =>
    intro k e hk _ _ _ _
    simp [stuff] at hk
  | cons b bs ih =>
    intro k e hk hw1 hw2 hw3 hw4
    by_cases hb : b = HDLC_FLAG ∨ b = HDLC_ESCAPE
    · -- escaped byte: putByte b = [ESCAPE, b ^^^ MASK]
      have hpb : putByte b = [HDLC_ESCAPE, b ^^^ HDLC_ESCAPE_MASK] := by
        simp [putByte, hb]
      have hstuff : stuff (b :: bs) =
          HDLC_ESCAPE :: (b ^^^ HDLC_ESCAPE_MASK) :: stuff bs := by
        simp [stuff, hpb]
      rw [hstuff] at hk hw1 hw2 hw3 hw4 ⊢
      match k with
      | 0 =>
        exact absurd (by simp : (HDLC_ESCAPE :: (b ^^^ HDLC_ESCAPE_MASK) ::
          stuff bs).getD 0 0 = HDLC_ESCAPE) hw2
      | 1 =>
        refine ⟨[], bs, b, WGroup.esc ((b ^^^ HDLC_ESCAPE_MASK) ^^^ e) :: bs.map groupOf,
          by simp, ?_, ?_, ?_⟩
        · rw [flipAt_cons_succ, flipAt_cons_zero]
          simp only [List.getD_cons_succ, List.getD_cons_zero] at hw3 hw4 ⊢
          simp [WGroup.wire, stuff_eq_groups]
        · intro g hg
          rcases List.mem_cons.mp hg with h | h
          · subst h
            simp only [List.getD_cons_succ, List.getD_cons_zero] at hw3 hw4
            exact ⟨hw3, hw4⟩
          · obtain ⟨x, _, rfl⟩ := List.mem_map.mp h
            exact groupOf_valid x
        · simp only [List.map_cons, map_stored_groupOf, List.nil_append,
            List.cons.injEq, and_true]
          show ((b ^^^ HDLC_ESCAPE_MASK) ^^^ e) ^^^ HDLC_ESCAPE_MASK = b ^^^ e
          rw [xor_right_comm, Nat.xor_assoc b HDLC_ESCAPE_MASK HDLC_ESCAPE_MASK,
            Nat.xor_self, Nat.xor_zero]
      | (k1 + 2) =>
        have hk1 : k1 < (stuff bs).length := by
          simpa using hk
        simp only [List.getD_cons_succ] at hw1 hw2 hw3 hw4
        obtain ⟨B1, B2, c, G, hsplit, hflip, hval, hstored⟩ :=
          ih k1 e hk1 hw1 hw2 hw3 hw4
        refine ⟨b :: B1, B2, c, WGroup.esc (b ^^^ HDLC_ESCAPE_MASK) :: G,
          by simp [hsplit], ?_, ?_, ?_⟩
        · rw [flipAt_cons_succ, flipAt_cons_succ, hflip]
          simp [WGroup.wire]
        · intro g hg
          rcases List.mem_cons.mp hg with h | h
          · subst h
            rcases hb with h | h <;> subst h <;> exact ⟨by decide, by decide⟩
          · exact hval g h
        · simp only [List.map_cons, hstored, List.cons_append, List.cons.injEq, and_true]
          show (b ^^^ HDLC_ESCAPE_MASK) ^^^ HDLC_ESCAPE_MASK = b
          rw [Nat.xor_assoc, Nat.xor_self, Nat.xor_zero]
    · -- literal byte: putByte b = [b]
      have hpb : putByte b = [b] := by
        simp [putByte, hb]
      have hstuff : stuff (b :: bs) = b :: stuff bs := by
        simp [stuff, hpb]
      push_neg at hb
      rw [hstuff] at hk hw1 hw2 hw3 hw4 ⊢
      match k with
      | 0 =>
        refine ⟨[], bs, b, WGroup.lit (b ^^^ e) :: bs.map groupOf,
          by simp, ?_, ?_, ?_⟩
        · rw [flipAt_cons_zero]
          simp only [List.getD_cons_zero] at hw3 hw4 ⊢
          simp [WGroup.wire, stuff_eq_groups]
        · intro g hg
          rcases List.mem_cons.mp hg with h | h
          · subst h
            simp only [List.getD_cons_zero] at hw3 hw4
            exact ⟨hw3, hw4⟩
          · obtain ⟨x, _, rfl⟩ := List.mem_map.mp h
            exact groupOf_valid x
        · simp only [List.map_cons, map_stored_groupOf, List.nil_append]
          rfl
      | (k1 + 1) =>
        have hk1 : k1 < (stuff bs).length := by
          simpa using hk
        simp only [List.getD_cons_succ] at hw1 hw2 hw3 hw4
        obtain ⟨B1, B2, c, G, hsplit, hflip, hval, hstored⟩ :=
          ih k1 e hk1 hw1 hw2 hw3 hw4
        refine ⟨b :: B1, B2, c, WGroup.lit b :: G, by simp [hsplit], ?_, ?_, ?_⟩
        · rw [flipAt_cons_succ, hflip]
          simp [WGroup.wire]
        · intro g hg
          rcases List.mem_cons.mp hg with h | h
          · subst h
            exact ⟨hb.1, hb.2⟩
          · exact hval g h
        · simp [hstored, WGroup.stored]

theorem receiveLoop_gframe (G : List WGroup) (last : Nat) (extra : List Nat)
    (hval : ∀ g ∈ G, g.valid) (hlen : G.length ≤ EMBENET_BRT_MAX_FRAME_SIZE)
    (hgt : G.length > 2) (hlast : last ≠ HDLC_ESCAPE) :
    receiveLoop ((G.map WGroup.wire).flatten ++ (HDLC_FLAG :: extra)) ⟨[], true, last⟩ =
      (⟨G.map WGroup.stored, false, HDLC_FLAG⟩, true, extra) := by
  rw [receiveLoop_groups G [] last (HDLC_FLAG :: extra) hval hlast (by simpa using hlen)]
  have hne : G ≠ [] := by
    intro hc
    rw [hc] at hgt
    simp at hgt
  have hgl := glast_ne G last hval hne
  have hstep : decodeStep ⟨G.map WGroup.stored, true, glast last G⟩ HDLC_FLAG =
      (⟨G.map WGroup.stored, false, HDLC_FLAG⟩, true) := by
    unfold decodeStep
    simp [hgl.1, hgt]
  simp only [List.nil_append]
  simp [receiveLoop, hstep]

theorem receive_reject_of_crc_mismatch (buf queue F : List Nat)
    (hloop : receiveLoop queue initDecState = (⟨F, false, HDLC_FLAG⟩, true, []))
    (hcond : ¬((0xffff ^^^ crcRun HDLC_CRCINIT (F.take (F.length - 2))) &&& 0xff =
        F.getD (F.length - 2) 0 ∧
      ((0xffff ^^^ crcRun HDLC_CRCINIT (F.take (F.length - 2))) >>> 8) &&& 0xff =
        F.getD (F.length - 1) 0)) :
    (EMBENET_BRT_Receive queue initDecState buf).1 = 0 := by
  unfold EMBENET_BRT_Receive
  rw [hloop]
  by_cases hpos : F.length > 0
  · rw [if_pos (show (true = true ∧ F.length > 0) from ⟨rfl, hpos⟩), if_neg hcond]
  · rw [if_neg (show ¬(true = true ∧ F.length > 0) from fun h => hpos h.2)]

theorem flipAt_send (p : List Nat) (k e : Nat) (hk1 : 1 ≤ k)
    (hk2 : k ≤ (stuff (sendBody p)).length) :
    flipAt (EMBENET_BRT_Send p) k e =
      HDLC_FLAG :: (flipAt (stuff (sendBody p)) (k - 1) e ++ [HDLC_FLAG]) := by
  rw [send_eq_flag_stuff_body]
  obtain ⟨k1, rfl⟩ : ∃ k1, k = k1 + 1 := ⟨k - 1, by omega⟩
  rw [flipAt_cons_succ]
  simp only [Nat.add_sub_cancel]
  congr 1
  unfold flipAt
  rw [List.take_append_of_le_length (by omega), List.getD_append _ _ _ _ (by omega),
    List.drop_append_of_le_length (by omega)]
  simp

theorem getD_send (p : List Nat) (k : Nat) (hk1 : 1 ≤ k)
    (hk2 : k ≤ (stuff (sendBody p)).length) :
    (EMBENET_BRT_Send p).getD k 0 = (stuff (sendBody p)).getD (k - 1) 0 := by
  rw [send_eq_flag_stuff_body]
  obtain ⟨k1, rfl⟩ : ∃ k1, k = k1 + 1 := ⟨k - 1, by omega⟩
  rw [List.getD_cons_succ]
  simp only [Nat.add_sub_cancel]
  exact List.getD_append _ _ _ _ (by omega)

theorem receive_flip_rejects (p buf queue : List Nat) (m e : Nat)
    (hm : m < p.length + 2) (he0 : e ≠ 0)
    (heT1 : fcstab.getD (e &&& 0xff) 0 ≠ 0)
    (heT2 : fcstab.getD (e &&& 0xff) 0 < 65536)
    (hloop : receiveLoop queue initDecState =
      (⟨flipAt (sendBody p) m e, false, HDLC_FLAG⟩, true, [])) :
    (EMBENET_BRT_Receive queue initDecState buf).1 = 0 := by
  apply receive_reject_of_crc_mismatch buf queue _ hloop
  have hFlen : (flipAt (sendBody p) m e).length = p.length + 2 := by
    rw [flipAt_length _ _ _ (by rw [sendBody_length]; omega), sendBody_length]
  rw [hFlen]
  have h22 : p.length + 2 - 2 = p.length := by omega
  have h21 : p.length + 2 - 1 = p.length + 1 := by omega
  rw [h22, h21]
  rcases (by omega : m < p.length ∨ m = p.length ∨ m = p.length + 1) with
    hcase | hcase | hcase
  · -- flip inside the payload
    have hsplitp := take_getD_drop p m (by omega)
    have hFeq : flipAt (sendBody p) m e = flipAt p m e ++
        [(0xffff ^^^ crcOf p) &&& 0xff, ((0xffff ^^^ crcOf p) >>> 8) &&& 0xff] := by
      show flipAt (p ++ _) m e = _
      unfold flipAt
      rw [List.take_append_of_le_length (by omega), List.getD_append _ _ _ _ (by omega),
        List.drop_append_of_le_length (by omega)]
      simp
    have hlenflip : (flipAt p m e).length = p.length := flipAt_length p m e (by omega)
    have htake : (flipAt p m e ++
        [(0xffff ^^^ crcOf p) &&& 0xff, ((0xffff ^^^ crcOf p) >>> 8) &&& 0xff]).take
          p.length = flipAt p m e := by
      rw [← hlenflip, List.take_left]
    have hgd1 : (flipAt p m e ++
        [(0xffff ^^^ crcOf p) &&& 0xff, ((0xffff ^^^ crcOf p) >>> 8) &&& 0xff]).getD
          p.length 0 = (0xffff ^^^ crcOf p) &&& 0xff := by
      rw [List.getD_append_right _ _ _ _ (le_of_eq hlenflip), hlenflip]
      simp
    have hgd2 : (flipAt p m e ++
        [(0xffff ^^^ crcOf p) &&& 0xff, ((0xffff ^^^ crcOf p) >>> 8) &&& 0xff]).getD
          (p.length + 1) 0 = ((0xffff ^^^ crcOf p) >>> 8) &&& 0xff := by
      rw [List.getD_append_right _ _ _ _ (by omega), hlenflip]
      simp
    rw [hFeq, htake, hgd1, hgd2]
    have hcrcflip : crcRun HDLC_CRCINIT (flipAt p m e) =
        crcOf p ^^^ crcZn (p.drop (m + 1)).length (fcstab.getD (e &&& 0xff) 0) := by
      have hfl : flipAt p m e = p.take m ++ (p.getD m 0 ^^^ e) :: p.drop (m + 1) := rfl
      rw [hfl, crcRun_flip]
      rw [← hsplitp]
      rfl
    rw [hcrcflip]
    have hE := crcZn_ok (p.drop (m + 1)).length (fcstab.getD (e &&& 0xff) 0) heT2 heT1
    rintro ⟨hc1, hc2⟩
    have hX : 0xffff ^^^ (crcOf p ^^^
        crcZn (p.drop (m + 1)).length (fcstab.getD (e &&& 0xff) 0)) < 65536 :=
      xor_lt_65536 _ _ (by norm_num) (xor_lt_65536 _ _ (crcOf_lt p) hE.2)
    have hY : 0xffff ^^^ crcOf p < 65536 :=
      xor_lt_65536 _ _ (by norm_num) (crcOf_lt p)
    have heq : 0xffff ^^^ (crcOf p ^^^
        crcZn (p.drop (m + 1)).length (fcstab.getD (e &&& 0xff) 0)) =
        0xffff ^^^ crcOf p :=
      bytes_inj _ _ hX hY hc1 hc2
    have hEE : crcOf p ^^^
        crcZn (p.drop (m + 1)).length (fcstab.getD (e &&& 0xff) 0) = crcOf p :=
      xor_cancel_left 0xffff _ _ heq
    have hzero : crcZn (p.drop (m + 1)).length (fcstab.getD (e &&& 0xff) 0) = 0 := by
      refine xor_cancel_left (crcOf p) _ 0 ?_
      rw [Nat.xor_zero]
      exact hEE
    exact hE.1 hzero
  · -- flip of the stored low CRC byte
    subst hcase
    have hFeq : flipAt (sendBody p) p.length e = p ++
        (((0xffff ^^^ crcOf p) &&& 0xff) ^^^ e) ::
          [((0xffff ^^^ crcOf p) >>> 8) &&& 0xff] := by
      show flipAt (p ++ ((0xffff ^^^ crcOf p) &&& 0xff) ::
        [((0xffff ^^^ crcOf p) >>> 8) &&& 0xff]) p.length e = _
      exact flip_of_append p _ _ e
    rw [hFeq]
    have htake : (p ++ (((0xffff ^^^ crcOf p) &&& 0xff) ^^^ e) ::
        [((0xffff ^^^ crcOf p) >>> 8) &&& 0xff]).take p.length = p := List.take_left p _
    have hgd1 : (p ++ (((0xffff ^^^ crcOf p) &&& 0xff) ^^^ e) ::
        [((0xffff ^^^ crcOf p) >>> 8) &&& 0xff]).getD p.length 0 =
          ((0xffff ^^^ crcOf p) &&& 0xff) ^^^ e := by
      rw [List.getD_append_right _ _ _ _ le_rfl]
      simp
    rw [htake, hgd1]
    rintro ⟨hc1, _⟩
    have hez : e = 0 := by
      have h0 : ((0xffff ^^^ crcOf p) &&& 0xff) ^^^ 0 =
          ((0xffff ^^^ crcOf p) &&& 0xff) ^^^ e := by
        rw [Nat.xor_zero]
        exact hc1
      exact (xor_cancel_left _ _ _ h0).symm
    exact he0 hez
  · -- flip of the stored high CRC byte
    subst hcase
    have hFeq : flipAt (sendBody p) (p.length + 1) e = p ++
        ((0xffff ^^^ crcOf p) &&& 0xff) ::
          [(((0xffff ^^^ crcOf p) >>> 8) &&& 0xff) ^^^ e] := by
      have hshape : sendBody p = (p ++ [(0xffff ^^^ crcOf p) &&& 0xff]) ++
          (((0xffff ^^^ crcOf p) >>> 8) &&& 0xff) :: [] := by
        unfold sendBody
        simp
      have hlen1 : p.length + 1 = (p ++ [(0xffff ^^^ crcOf p) &&& 0xff]).length := by
        simp
      rw [hshape, hlen1, flip_of_append]
      simp
    rw [hFeq]
    have htake : (p ++ ((0xffff ^^^ crcOf p) &&& 0xff) ::
        [(((0xffff ^^^ crcOf p) >>> 8) &&& 0xff) ^^^ e]).take p.length = p :=
      List.take_left p _
    have hgd2 : (p ++ ((0xffff ^^^ crcOf p) &&& 0xff) ::
        [(((0xffff ^^^ crcOf p) >>> 8) &&& 0xff) ^^^ e]).getD (p.length + 1) 0 =
          (((0xffff ^^^ crcOf p) >>> 8) &&& 0xff) ^^^ e := by
      rw [List.getD_append_right _ _ _ _ (by omega)]
      simp
    rw [htake, hgd2]
    rintro ⟨_, hc2⟩
    have hez : e = 0 := by
      have h0 : (((0xffff ^^^ crcOf p) >>> 8) &&& 0xff) ^^^ 0 =
          (((0xffff ^^^ crcOf p) >>> 8) &&& 0xff) ^^^ e := by
        rw [Nat.xor_zero]
        exact hc2
      exact (xor_cancel_left _ _ _ h0).symm
    exact he0 hez

theorem stuff_no_flag (l : List Nat) : ∀ b ∈ stuff l, b ≠ HDLC_FLAG := by
  intro b hb
  unfold stuff at hb
  rw [List.mem_flatten] at hb
  obtain ⟨w, hw, hbw⟩ := hb
  obtain ⟨x, _, rfl⟩ := List.mem_map.mp hw
  unfold putByte at hbw
  split_ifs at hbw with h
  · simp only [List.mem_cons, List.not_mem_nil, or_false] at hbw
    rcases h with h | h <;> rcases hbw with h2 | h2 <;> subst h <;> subst h2 <;> decide
  · simp only [List.mem_cons, List.not_mem_nil, or_false] at hbw
    subst hbw
    push_neg at h
    exact h.1

/-- Counterexample to claim C6 as stated: take the payload
`[0x01, 0xF1, 0xE1, 0x7F]`, whose second and third bytes happen to be the
complemented CRC of `[0x01]`. Its wire frame is
`7E 01 F1 E1 7F BC 4D 7E`; flipping bit 0 of the interior wire byte `7F`
(position 4, not a delimiting FLAG) turns it into the FLAG byte `7E`, the
decoder terminates early on the now-valid embedded frame `01 F1 E1`, and
`EMBENET_BRT_Receive` returns 1 with payload `[0x01]` — not 0. -/
theorem claim_C6_cex :
    1 ≤ 4 ∧ 4 < (EMBENET_BRT_Send [0x01, 0xf1, 0xe1, 0x7f]).length - 1 ∧
    (EMBENET_BRT_Send [0x01, 0xf1, 0xe1, 0x7f]).getD 4 0 = 0x7f ∧
    (EMBENET_BRT_Receive
      (flipAt (EMBENET_BRT_Send [0x01, 0xf1, 0xe1, 0x7f]) 4 (2 ^ 0))
      initDecState [9, 9, 9, 9]).1 = 1 := by
  decide

/-- Claim C6, amended: flipping a single bit of an interior wire byte of
an encoded frame (neither of the two delimiting FLAG bytes) makes
`EMBENET_BRT_Receive` return 0, PROVIDED the flip preserves the stuffing
structure: the targeted wire byte is not an ESCAPE byte (the first byte of
an escape pair) and the flipped byte is neither FLAG nor ESCAPE. Flips
that forge a FLAG byte can truncate the frame at a point where the
embedded bytes form a CRC-valid frame and be accepted (see the
counterexample). -/
theorem claim_C6 (p buf : List Nat) (k j : Nat)
    (h1 : 1 ≤ p.length) (h2 : p.length ≤ 198) (hj : j < 8)
    (hk1 : 1 ≤ k) (hk2 : k < (EMBENET_BRT_Send p).length - 1)
    (hw2 : (EMBENET_BRT_Send p).getD k 0 ≠ HDLC_ESCAPE)
    (hw3 : (EMBENET_BRT_Send p).getD k 0 ^^^ 2 ^ j ≠ HDLC_FLAG)
    (hw4 : (EMBENET_BRT_Send p).getD k 0 ^^^ 2 ^ j ≠ HDLC_ESCAPE) :
    (EMBENET_BRT_Receive (flipAt (EMBENET_BRT_Send p) k (2 ^ j))
      initDecState buf).1 = 0 := by
  have hilen : (EMBENET_BRT_Send p).length = (stuff (sendBody p)).length + 2 := by
    rw [send_eq_flag_stuff_body]
    simp
  have hk2i : k ≤ (stuff (sendBody p)).length := by omega
  have hkin : k - 1 < (stuff (sendBody p)).length := by omega
  rw [getD_send p k hk1 hk2i] at hw2 hw3 hw4
  have hw1 : (stuff (sendBody p)).getD (k - 1) 0 ≠ HDLC_FLAG := by
    have hmem : (stuff (sendBody p)).getD (k - 1) 0 ∈ stuff (sendBody p) := by
      rw [List.getD_eq_getElem _ _ hkin]
      exact List.getElem_mem hkin
    exact stuff_no_flag _ _ hmem
  obtain ⟨B1, B2, c, G, hsplit, hflip, hval, hstored⟩ :=
    stuff_flip (sendBody p) (k - 1) (2 ^ j) hkin hw1 hw2 hw3 hw4
  have hslen : (sendBody p).length = B1.length + (B2.length + 1) := by
    rw [hsplit]
    simp
  rw [sendBody_length] at hslen
  have hGlen : G.length = p.length + 2 := by
    have hl := congrArg List.length hstored
    simp at hl
    omega
  have hstored2 : G.map WGroup.stored = flipAt (sendBody p) B1.length (2 ^ j) := by
    rw [hstored, hsplit, flip_of_append]
  have hloop : receiveLoop (flipAt (EMBENET_BRT_Send p) k (2 ^ j)) initDecState =
      (⟨flipAt (sendBody p) B1.length (2 ^ j), false, HDLC_FLAG⟩, true, []) := by
    rw [flipAt_send p k (2 ^ j) hk1 hk2i, hflip]
    have hfirst : decodeStep initDecState HDLC_FLAG = (⟨[], true, HDLC_FLAG⟩, false) := by
      unfold decodeStep initDecState
      simp
    have h0 : receiveLoop (HDLC_FLAG :: ((G.map WGroup.wire).flatten ++ [HDLC_FLAG]))
        initDecState =
        receiveLoop ((G.map WGroup.wire).flatten ++ [HDLC_FLAG]) ⟨[], true, HDLC_FLAG⟩ := by
      simp [receiveLoop, hfirst]
    rw [h0]
    have hsingleton : (G.map WGroup.wire).flatten ++ [HDLC_FLAG] =
        (G.map WGroup.wire).flatten ++ (HDLC_FLAG :: []) := rfl
    rw [hsingleton, receiveLoop_gframe G HDLC_FLAG [] hval
      (by rw [hGlen]; unfold EMBENET_BRT_MAX_FRAME_SIZE; omega)
      (by rw [hGlen]; omega) (by decide), hstored2]
  exact receive_flip_rejects p buf _ B1.length (2 ^ j) (by omega)
    (by positivity) ((fcstab_pow j hj).1) ((fcstab_pow j hj).2) hloop

/-- Witness for the amended C6: payload `[1, 2]`, flipping bit 1 of the
wire byte at position 1 (the payload byte `0x01`) is rejected. -/
theorem claim_C6_witness :
    (EMBENET_BRT_Receive (flipAt (EMBENET_BRT_Send [1, 2]) 1 (2 ^ 1))
      initDecState [9, 9]).1 = 0 :=
  claim_C6 [1, 2] [9, 9] 1 1 (by decide) (by decide) (by decide) (by decide)
    (by decide) (by decide) (by decide) (by decide)

end BRT
